import Mathlib

/-
  Verification development for the dmsc-visualizer core
  (src/solver.cpp, src/instance.cpp).

  Shallow embedding conventions:
  * C++ float arithmetic is idealized as exact rational arithmetic; the
    IEEE value INFINITY, which the solver uses as a sentinel, is modelled
    by the dedicated type FVal below.
  * std::map keyed by object address is modelled by an association list
    keyed by a natural-number id; operator[] (which default-inserts) is
    modelled by mapGetIns, find by mapFind.
  * The class declarations (Satellite, InterSatelliteLink, Timeline)
    live in headers that are not part of the sources; the members the
    solver calls are modelled from the spec, as documented inline.
-/

namespace dmsc

/-- A C++ float used by the solver: either a finite value (idealized as a
rational) or the IEEE sentinel INFINITY. -/
inductive FVal where
  | inf : FVal
  | val : ℚ → FVal
deriving DecidableEq

/-- Order on solver float values: every value is at most INFINITY, and
INFINITY exceeds every finite value. -/
def FVal.Le : FVal → FVal → Prop
  | _, .inf => True
  | .inf, .val _ => False
  | .val a, .val b => a ≤ b

instance FVal.decLe (a b : FVal) : Decidable (FVal.Le a b) := by
  cases a <;> cases b
  case inf.inf => exact isTrue trivial
  case inf.val => exact isFalse id
  case val.inf => exact isTrue trivial
  case val.val a b => exact inferInstanceAs (Decidable (a ≤ b))

/-- IEEE float addition restricted to the values the solver produces
(no NaN arises: the solver never adds opposite infinities). -/
def FVal.add : FVal → FVal → FVal
  | .inf, _ => .inf
  | .val _, .inf => .inf
  | .val a, .val b => .val (a + b)

/-- std::max on solver float values. -/
def FVal.maxF : FVal → FVal → FVal
  | .inf, _ => .inf
  | .val _, .inf => .inf
  | .val a, .val b => .val (max a b)

/-- Float division with a positive-or-zero divisor semantics: dividing a
finite numerator by zero yields INFINITY (the IEEE behaviour the solver
relies on when a rotation speed is zero). -/
def fdiv (a b : ℚ) : FVal :=
  if b = 0 then .inf else .val (a / b)

/-- The single-precision value of M_PI after the cast in solver.cpp:
the float nearest to pi. -/
def pi_f : ℚ := 13176795 / 4194304

/-- Truncation toward zero, as the C cast (int) and fmodf perform. -/
def truncQ (q : ℚ) : ℤ :=
  if 0 ≤ q then ⌊q⌋ else ⌈q⌉

/-- fmodf on exact rationals: a - b * trunc(a / b).  (For b = 0 the C
function returns NaN; every use in the solver has a positive modulus,
which the theorems hypothesize.) -/
def fmodQ (a b : ℚ) : ℚ := a - b * (truncQ (a / b) : ℚ)

/-- A visibility interval of the cache, TimelineEvent<void> in the
sources: a half-open interval of simulated time. -/
structure TimelineEvent where
  t_begin : ℚ
  t_end : ℚ
deriving DecidableEq

instance : Inhabited TimelineEvent := ⟨⟨0, 0⟩⟩

/-- The per-link visibility cache entry: the intervals in insertion
order (Solver::createCache inserts them with increasing start times, so
the std::set order coincides with list order). -/
abbrev Timeline := List TimelineEvent

/-- Modelled from the spec: Timeline::nextTimeWithEvent(t, true) is
declared in a header that is not part of the sources.  Per the spec it
returns the smallest time at or after t at which the requested
visibility state begins, wrapping around the period if necessary, and a
sentinel on an empty timeline (every call site guards emptiness, so the
sentinel value 0 is never observable). -/
def nextTimeWithEvent (tl : Timeline) (t : ℚ) : ℚ :=
  match tl.find? (fun iv => decide (t ≤ iv.t_begin)) with
  | some iv => iv.t_begin
  | none =>
    match tl.head? with
    | some iv => iv.t_begin
    | none => 0

/-- Modelled from the spec: TimelineEvent<glm::vec3>, the satellite
orientation snapshot stored in Solver::satellite_orientation.  The map
operator[] value-initializes absent entries, modelled by the default
instance below. -/
structure OrientEvent where
  t_begin : ℚ
  t_end : ℚ
  data : ℚ × ℚ × ℚ
deriving DecidableEq

instance : Inhabited OrientEvent := ⟨⟨0, 0, (0, 0, 0)⟩⟩

/-- Modelled from the spec: class InterSatelliteLink is declared in a
header that is not part of the sources.  The solver only calls getV1,
getV2 (satellite identities and rotation speeds), getPeriod, isBlocked
and canAlign; per the spec these are pure functions of the link and the
queried time, so the link is modelled as a record carrying them.  v1 and
v2 are the ids keying Solver::satellite_orientation. -/
structure InterSatelliteLink where
  v1 : ℕ
  v2 : ℕ
  rs1 : ℚ
  rs2 : ℚ
  period : ℚ
  isBlocked : ℚ → Bool
  canAlign : OrientEvent → OrientEvent → ℚ → Bool

def defaultISL : InterSatelliteLink :=
  ⟨0, 0, 0, 0, 0, fun _ => false, fun _ _ _ => false⟩

instance : Inhabited InterSatelliteLink := ⟨defaultISL⟩

/-- Lookup in an association list modelling std::map::find. -/
def mapFind {α : Type} (m : List (ℕ × α)) (k : ℕ) : Option α :=
  match m.find? (fun p => decide (p.1 = k)) with
  | some p => some p.2
  | none => none

/-- std::map operator[]: returns the stored value, default-inserting
when the key is absent; the pair is (value read, map afterwards). -/
def mapGetIns {α : Type} (m : List (ℕ × α)) (k : ℕ) (d : α) : α × List (ℕ × α) :=
  match m.find? (fun p => decide (p.1 = k)) with
  | some p => (p.2, m)
  | none => (d, m ++ [(k, d)])

/-- The state of a Solver object: the instance edge list (indexed by
position, which also serves as the map key standing for the edge
address), the visibility cache map, the satellite orientation map and
the search step size. -/
structure SolverState where
  edges : List InterSatelliteLink
  edge_time_slots : List (ℕ × Timeline)
  satellite_orientation : List (ℕ × OrientEvent)
  step_size : ℚ

/-- Solver::nextVisibility from solver.cpp.  Mirrors the source line by
line; the query both returns a float and (through operator[]) may
default-insert an empty timeline, so the result is paired with the
state afterwards. -/
def Solver.nextVisibility (st : SolverState) (eid : ℕ) (t0 : ℚ) : FVal × SolverState :=
  let e := st.edges.getD eid defaultISL
  let p := mapGetIns st.edge_time_slots eid []
  let st1 : SolverState := ⟨st.edges, p.2, st.satellite_orientation, st.step_size⟩
  if p.1.length = 0 then (.inf, st1)
  else
    let t := fmodQ t0 e.period
    let n_periods := e.period * (truncQ (t0 / e.period) : ℚ)
    let t_next := nextTimeWithEvent p.1 t
    if t_next < t then (.val (t_next + (n_periods + e.period)), st1)
    else (.val (t_next + n_periods), st1)

/-- The bounded forward-search loop of Solver::nextCommunication,
with an explicit fuel argument: the source iterates a float for-loop,
modelled by structural recursion where none means the fuel ran out
before the loop exited (the loop itself never mutates solver state, so
only the float result is produced). -/
def Solver.nextCommGo (e : InterSatelliteLink) (s1 s2 : OrientEvent)
    (slots : List (ℕ × Timeline)) (eid : ℕ) (bound : FVal) (step : ℚ) :
    ℕ → ℚ → Option FVal
  | 0, _ => none
  | fuel + 1, t =>
    if FVal.Le (.val t) bound then
      let t1 : ℚ :=
        if e.isBlocked t then
          let t_rel := fmodQ t e.period
          let t_next : ℚ :=
            match mapFind slots eid with
            | some tl => nextTimeWithEvent tl t_rel
            | none => 0
          if t_next < t_rel then t + (t_next + e.period - t_rel)
          else t + (t_next - t_rel)
        else t
      if e.canAlign s1 s2 t1 && !(e.isBlocked t1) then some (.val t1)
      else Solver.nextCommGo e s1 s2 slots eid bound step fuel (t1 + step)
    else some .inf

/-- Solver::nextCommunication from solver.cpp.  Reads the orientation
snapshots through operator[] (default-inserting), answers directly when
the link is never visible or already alignable at the first visible
time, and otherwise runs the bounded search with
t_max = max(pi/rs1, pi/rs2) + period.  The fuel argument makes the
float for-loop structurally recursive; a none result means the loop
would still be running after that many iterations. -/
def Solver.nextCommunication (st : SolverState) (eid : ℕ) (time_0 : ℚ) (fuel : ℕ) :
    Option FVal × SolverState :=
  let e := st.edges.getD eid defaultISL
  let nv := Solver.nextVisibility st eid time_0
  match nv.1 with
  | .inf => (some .inf, nv.2)
  | .val t_visible =>
    let p1 := mapGetIns nv.2.satellite_orientation e.v1 default
    let sat1 := p1.1
    let p2 := mapGetIns p1.2 e.v2 default
    let sat2 := p2.1
    let st2 : SolverState := ⟨nv.2.edges, nv.2.edge_time_slots, p2.2, nv.2.step_size⟩
    if e.canAlign sat1 sat2 t_visible then (some (.val t_visible), st2)
    else
      let t_max := FVal.add (FVal.maxF (fdiv pi_f e.rs1) (fdiv pi_f e.rs2)) (.val e.period)
      let bound := FVal.add (.val time_0) t_max
      (Solver.nextCommGo e sat1 sat2 st2.edge_time_slots eid bound st2.step_size fuel t_visible,
       st2)

/-- Termination of the nextCommunication search at given arguments:
some amount of fuel makes the loop exit (equivalently, the C++ loop
performs finitely many iterations). -/
def NCTerminates (st : SolverState) (eid : ℕ) (t0 : ℚ) : Prop :=
  ∃ fuel, (Solver.nextCommunication st eid t0 fuel).1 ≠ none

/-- The fold over instance.getEdges() inside Solver::lowerBound. -/
def Solver.lowerBoundGo : List ℕ → ℚ → SolverState → ℚ × SolverState
  | [], lb, st => (lb, st)
  | eid :: rest, lb, st =>
    let nv := Solver.nextVisibility st eid 0
    match nv.1 with
    | .inf => Solver.lowerBoundGo rest lb nv.2
    | .val t =>
      if lb < t then Solver.lowerBoundGo rest t nv.2
      else Solver.lowerBoundGo rest lb nv.2

/-- Solver::lowerBound from solver.cpp: starting from 0, replace the
accumulator by nextVisibility(e, 0) whenever that value is finite and
exceeds it. -/
def Solver.lowerBound (st : SolverState) : ℚ × SolverState :=
  Solver.lowerBoundGo (List.range st.edges.length) 0 st

/-- Number of iterations of a float scan for t = t0; t <= t0 + period;
t += step, on exact rationals (period < 0 gives zero iterations, as in
the source). -/
def iterCount (period step : ℚ) : ℕ :=
  if period < 0 then 0 else (⌊period / step⌋).toNat + 1

/-- Solver::findNextVisiblity from solver.cpp (source spelling kept):
the first sample t0 + k * step, k * step <= period, at which the edge
is not blocked, INFINITY when every sample is blocked. -/
def Solver.findNextVisiblity (e : InterSatelliteLink) (step t0 : ℚ) : FVal :=
  match (List.range (iterCount e.period step)).find?
      (fun (k : ℕ) => ! e.isBlocked (t0 + (k : ℚ) * step)) with
  | some k => .val (t0 + (k : ℚ) * step)
  | none => .inf

/-- Solver::findLastVisible from solver.cpp: the first blocked sample
minus one step, INFINITY when no sample is blocked. -/
def Solver.findLastVisible (e : InterSatelliteLink) (step t0 : ℚ) : FVal :=
  match (List.range (iterCount e.period step)).find?
      (fun (k : ℕ) => e.isBlocked (t0 + (k : ℚ) * step)) with
  | some k => .val (t0 + (k : ℚ) * step - step)
  | none => .inf

/-- The per-edge loop of Solver::createCache, with fuel making the
float for-loop structurally recursive.  Each pass finds the next
unblocked sample, extends it to the last visible sample (clamping at
the period boundary), appends the interval and resumes one step after
its end. -/
def Solver.createCacheGo (e : InterSatelliteLink) (step : ℚ) :
    ℕ → ℚ → Timeline → Timeline
  | 0, _, acc => acc
  | fuel + 1, t, acc =>
    if t < e.period then
      match Solver.findNextVisiblity e step t with
      | .inf => acc
      | .val t_next =>
        if e.period ≤ t_next then acc
        else
          let t_end : ℚ :=
            match Solver.findLastVisible e step t_next with
            | .inf => e.period
            | .val te => if e.period ≤ te then e.period else te
          Solver.createCacheGo e step fuel (t_end + step) (acc ++ [⟨t_next, t_end⟩])
    else acc

/-- Solver::createCache from solver.cpp, restricted to one edge (the
source loops this body over all edges, writing each result into
edge_time_slots).  The supplied fuel exceeds the number of iterations
the float loop can perform when step > 0. -/
def Solver.createCache (e : InterSatelliteLink) (step : ℚ) : Timeline :=
  Solver.createCacheGo e step (iterCount e.period step + 2) 0 []

/-- The timeline the solver would read for key k: map lookup with the
default-constructed (empty) timeline for absent keys. -/
def tlook (st : SolverState) (k : ℕ) : Timeline :=
  (mapFind st.edge_time_slots k).getD []

/-- The orientation snapshot the solver would read for key k. -/
def olook (st : SolverState) (k : ℕ) : OrientEvent :=
  (mapFind st.satellite_orientation k).getD default

/-- The strictly positive finite first-visibility times of the links,
following the words of the spec sentence behind lowerBound (the
refinement target the claim states; the implementation is compared
against it). -/
def firstVisibilities (st : SolverState) : List ℚ :=
  (List.range st.edges.length).filterMap (fun eid =>
    match (Solver.nextVisibility st eid 0).1 with
    | .inf => none
    | .val q => if 0 < q then some q else none)

/-
  Instance world (instance.cpp).  A Satellite is the orbit record the
  loader builds; an Edge stores the two orbit references plus the
  central-mass radius.  C++ object addresses are modelled by natural
  numbers: an Instance carries, besides the orbit values, the list of
  addresses of its orbit objects (in sequence order), and an Edge
  stores the addresses of its two endpoints.
-/

/-- Modelled from the spec: class Satellite is declared in a header not
part of the sources; instance.cpp constructs it from the parsed state
vector, the epoch anomaly, the gravitational parameter and the central
radius, so the model stores exactly those fields. -/
structure Satellite where
  height_perigee : ℚ
  eccentricity : ℚ
  raan : ℚ
  argument_periapsis : ℚ
  inclination : ℚ
  rotation_speed : ℚ
  anomaly : ℚ
  grav : ℚ
  radius : ℚ
deriving DecidableEq

/-- Modelled from the spec: class Edge stores references to its two
orbits plus the central-mass radius.  v1 and v2 are the addresses (in
the loader, equivalently the indices) of the endpoint orbits. -/
structure Edge where
  v1 : ℕ
  v2 : ℕ
  radius_central_mass : ℚ
deriving DecidableEq

def defaultEdge : Edge := ⟨0, 0, 0⟩

/-- An Instance as instance.cpp manipulates it: the owned orbit values,
the addresses at which those orbit objects live (orbitAddrs[i] is the
address of orbits[i]), and the edges referring to orbits by address. -/
structure Instance where
  radius_central_mass : ℚ
  gravitational_parameter : ℚ
  orbits : List Satellite
  orbitAddrs : List ℕ
  edges : List Edge
deriving DecidableEq

/-- Lookup in the orbit_map built by the copy routines; std::map
operator[] value-initializes an absent key, so a reference that is not
an orbit of the source maps to the null address 0. -/
def addrLookup (m : List (ℕ × ℕ)) (k : ℕ) : ℕ :=
  (mapFind m k).getD 0

/-- The copy constructor Instance::Instance(const Instance&) from
instance.cpp: orbit values are copied wholesale to freshly allocated
objects (their new addresses are the parameter fresh), the orbit_map
from old to new addresses is built, and every edge is rebuilt with its
endpoints sent through the map. -/
def Instance.copy (source : Instance) (fresh : List ℕ) : Instance :=
  let orbit_map := List.zip source.orbitAddrs fresh
  let newEdges := source.edges.map (fun e =>
    ⟨addrLookup orbit_map e.v1, addrLookup orbit_map e.v2, e.radius_central_mass⟩)
  ⟨source.radius_central_mass, source.gravitational_parameter,
   source.orbits, fresh, newEdges⟩

/-- Instance::operator= from instance.cpp: after the self-assignment
check it performs the same remapping as the copy constructor (the
shrink_to_fit calls have no observable effect in this model). -/
def Instance.assign (dst source : Instance) (fresh : List ℕ) (isSelf : Bool) : Instance :=
  if isSelf then dst else Instance.copy source fresh

/-
  Loader (Instance::Instance(const std::string&)).  A line of the file
  is either the section terminator ===END=== or a delimited record.
  Modelled from the spec: std::stof / std::stoi parsing of one field is
  abstracted as an Option ℚ, none meaning the field is missing or
  malformed so the parse throws; stoi keeps the integer part, modelled
  by truncation.
-/

inductive Line where
  | endMarker : Line
  | record : List (Option ℚ) → Line

/-- The loading state: current section mode (READ_INIT = 0, READ_ORBIT
= 1, READ_EDGE = 2), the instance fields, and loader edges referring to
orbits by index. -/
structure LoaderState where
  mode : ℕ
  radius_central_mass : ℚ
  gravitational_parameter : ℚ
  orbits : List Satellite
  edges : List Edge
deriving DecidableEq

/-- Reading field i of a record; a missing field behaves like a
malformed one (getline leaves an empty token and stof throws). -/
def getF (fs : List (Option ℚ)) (i : ℕ) : Option ℚ :=
  fs.getD i none

/-- The READ_INIT branch: radius then gravitational parameter; a throw
on the second field keeps the first assignment (as in the source, where
the catch is outside the switch). -/
def parseInit (st : LoaderState) (fs : List (Option ℚ)) : LoaderState :=
  match getF fs 0 with
  | none => st
  | some r =>
    match getF fs 1 with
    | none => ⟨st.mode, r, st.gravitational_parameter, st.orbits, st.edges⟩
    | some g => ⟨st.mode, r, g, st.orbits, st.edges⟩

/-- The READ_ORBIT branch: field 0 (the id) is read but never parsed;
fields 1..7 must all parse, every assignment before the push_back only
touches the local state vector, so any throw leaves the state
unchanged. -/
def parseOrbit (st : LoaderState) (fs : List (Option ℚ)) : LoaderState :=
  match getF fs 1 with
  | none => st
  | some hp =>
    match getF fs 2 with
    | none => st
    | some ec =>
      match getF fs 3 with
      | none => st
      | some an =>
        match getF fs 4 with
        | none => st
        | some ra =>
          match getF fs 5 with
          | none => st
          | some ag =>
            match getF fs 6 with
            | none => st
            | some il =>
              match getF fs 7 with
              | none => st
              | some rs =>
                ⟨st.mode, st.radius_central_mass, st.gravitational_parameter,
                 st.orbits ++
                   [⟨hp, ec, ra, ag, il, rs, an,
                     st.gravitational_parameter, st.radius_central_mass⟩],
                 st.edges⟩

/-- The READ_EDGE branch: both indices must parse and both,
vector::at-style, must be in range; otherwise the record is skipped
with nothing emplaced. -/
def parseEdge (st : LoaderState) (fs : List (Option ℚ)) : LoaderState :=
  match getF fs 0 with
  | none => st
  | some qa =>
    match getF fs 1 with
    | none => st
    | some qb =>
      let a := truncQ qa
      let b := truncQ qb
      if 0 ≤ a ∧ a < (st.orbits.length : ℤ) ∧ 0 ≤ b ∧ b < (st.orbits.length : ℤ) then
        ⟨st.mode, st.radius_central_mass, st.gravitational_parameter, st.orbits,
         st.edges ++ [⟨a.toNat, b.toNat, st.radius_central_mass⟩]⟩
      else st

/-- One iteration of the while(getline) loop of the loading
constructor. -/
def stepLine (st : LoaderState) (l : Line) : LoaderState :=
  match l with
  | .endMarker => ⟨st.mode + 1, st.radius_central_mass, st.gravitational_parameter,
                   st.orbits, st.edges⟩
  | .record fs =>
    match st.mode with
    | 0 => parseInit st fs
    | 1 => parseOrbit st fs
    | 2 => parseEdge st fs
    | _ => st

/-- The whole loading loop over the lines of the file. -/
def loadLines (ls : List Line) (st : LoaderState) : LoaderState :=
  ls.foldl stepLine st

/-- An orbit record whose parse throws: some numeric field among 1..7
is malformed or missing. -/
def BadOrbitRecord (fs : List (Option ℚ)) : Prop :=
  getF fs 1 = none ∨ getF fs 2 = none ∨ getF fs 3 = none ∨ getF fs 4 = none ∨
  getF fs 5 = none ∨ getF fs 6 = none ∨ getF fs 7 = none

/-- An edge record that fails: a malformed index field, or an index
outside the orbit sequence (vector::at throws). -/
def BadEdgeRecord (st : LoaderState) (fs : List (Option ℚ)) : Prop :=
  ¬ ∃ qa qb, getF fs 0 = some qa ∧ getF fs 1 = some qb ∧
    0 ≤ truncQ qa ∧ truncQ qa < (st.orbits.length : ℤ) ∧
    0 ≤ truncQ qb ∧ truncQ qb < (st.orbits.length : ℤ)

/-
  Geometry world (Solver::sphereIntersection).  Positions are exact
  points of real 3-space; the satellite positions entering the test are
  the values of Satellite::cartesian_coordinates at the queried time,
  which (modelled from the spec) is a pure function of time, so the
  test is stated directly on the two positions.
-/

abbrev Vec3 := ℝ × ℝ × ℝ

def dot3 (u v : Vec3) : ℝ := u.1 * v.1 + u.2.1 * v.2.1 + u.2.2 * v.2.2

def sub3 (u v : Vec3) : Vec3 := (u.1 - v.1, u.2.1 - v.2.1, u.2.2 - v.2.2)

/-- Solver::sphereIntersection from solver.cpp, as a predicate on the
two satellite positions at the queried time.  The sphere center is the
origin and the radius is the hard-coded constant radius_earth = 6378
(the source carries a todo remark about that constant).  The early
returns of the source become the conjunction of their negations. -/
def Solver.sphereIntersection (sat1 sat2 : Vec3) : Prop :=
  let diff := sub3 sat2 sat1
  let len := Real.sqrt (dot3 diff diff)
  let direction : Vec3 := (diff.1 / len, diff.2.1 / len, diff.2.2 / len)
  let radius_earth : ℝ := 6378
  let distance_to_center := sat1
  let a := dot3 direction distance_to_center
  let discr := a * a - (dot3 distance_to_center distance_to_center - radius_earth * radius_earth)
  let d1 := -a + Real.sqrt discr
  let d2 := -a - Real.sqrt discr
  let dist_between_sat := Real.sqrt (dot3 (sub3 sat1 sat2) (sub3 sat1 sat2))
  ¬ (discr ≤ 0) ∧ ¬ (d1 < 0 ∧ d2 < 0) ∧
    ¬ (dist_between_sat ≤ d1 ∧ dist_between_sat ≤ d2)

/-
  Pure views of the two solver queries.  nextVisibility and the
  nextCommunication loop read the solver maps only through the lookups
  tlook / olook; the following definitions express the returned float
  as a function of those lookups, and the lemmas below prove the
  decomposition.  All claim-level reasoning happens on these views.
-/

/-- The float returned by Solver::nextVisibility, as a function of the
edge, the timeline read for it, and the start time. -/
def nvPure (e : InterSatelliteLink) (tl : Timeline) (t0 : ℚ) : FVal :=
  if tl.length = 0 then .inf
  else
    let t := fmodQ t0 e.period
    let n_periods := e.period * (truncQ (t0 / e.period) : ℚ)
    let t_next := nextTimeWithEvent tl t
    if t_next < t then .val (t_next + (n_periods + e.period))
    else .val (t_next + n_periods)

/-- The nextCommunication search loop, as a function of the timeline
read for the edge (the loop never mutates the map, and the edge entry
is present when the loop runs). -/
def ncGoPure (e : InterSatelliteLink) (s1 s2 : OrientEvent) (tl : Timeline)
    (bound : FVal) (step : ℚ) : ℕ → ℚ → Option FVal
  | 0, _ => none
  | fuel + 1, t =>
    if FVal.Le (.val t) bound then
      let t1 : ℚ :=
        if e.isBlocked t then
          let t_rel := fmodQ t e.period
          let t_next := nextTimeWithEvent tl t_rel
          if t_next < t_rel then t + (t_next + e.period - t_rel)
          else t + (t_next - t_rel)
        else t
      if e.canAlign s1 s2 t1 && !(e.isBlocked t1) then some (.val t1)
      else ncGoPure e s1 s2 tl bound step fuel (t1 + step)
    else some .inf

/-- The search horizon time_0 + max(pi/rs1, pi/rs2) + period of
Solver::nextCommunication. -/
def ncBound (e : InterSatelliteLink) (t0 : ℚ) : FVal :=
  FVal.add (.val t0) (FVal.add (FVal.maxF (fdiv pi_f e.rs1) (fdiv pi_f e.rs2)) (.val e.period))

/-- The float returned by Solver::nextCommunication, as a function of
the lookups performed on entry. -/
def ncPure (e : InterSatelliteLink) (tl : Timeline) (s1 s2 : OrientEvent)
    (step t0 : ℚ) (fuel : ℕ) : Option FVal :=
  match nvPure e tl t0 with
  | .inf => some .inf
  | .val tv =>
    if e.canAlign s1 s2 tv then some (.val tv)
    else ncGoPure e s1 s2 tl (ncBound e t0) step fuel tv

/-- Observational equivalence of solver states: the two states answer
every lookup the queries perform identically. -/
structure StEquiv (s t : SolverState) : Prop where
  edges_eq : s.edges = t.edges
  step_eq : s.step_size = t.step_size
  tl_eq : ∀ k, tlook s k = tlook t k
  or_eq : ∀ k, olook s k = olook t k

/-
  Concrete inputs used by witnesses and counterexamples.
-/

/-- A benign link: rotation speed 1 on both satellites, period 10,
never blocked, always alignable. -/
def wISL : InterSatelliteLink :=
  ⟨0, 1, 1, 1, 10, fun _ => false, fun _ _ _ => true⟩

/-- Solver state for witnesses: one benign link whose cache holds the
single interval [0, 10). -/
def wSt : SolverState :=
  ⟨[wISL], [(0, [⟨0, 10⟩])], [], 1⟩

/-- Two benign links whose caches first open at times 1 and 2. -/
def c1St : SolverState :=
  ⟨[wISL, wISL], [(0, [⟨1, 2⟩]), (1, [⟨2, 3⟩])], [], 1⟩

/-- A link with zero rotation speed on both satellites that can never
align: never blocked, cache holding [0, 10). -/
def c3ISL : InterSatelliteLink :=
  ⟨0, 1, 0, 0, 10, fun _ => false, fun _ _ _ => false⟩

def c3St : SolverState :=
  ⟨[c3ISL], [(0, [⟨0, 10⟩])], [], 1⟩

/-- One link with an empty visibility cache. -/
def c10St : SolverState :=
  ⟨[wISL], [], [], 1⟩

/-- A link blocked strictly before time 2 and visible from then on,
period 10. -/
def c6e : InterSatelliteLink :=
  ⟨0, 1, 1, 1, 10, fun t => decide (t < 2), fun _ _ _ => false⟩

def dummySat : Satellite := ⟨0, 0, 0, 0, 0, 0, 0, 0, 0⟩

/-- A two-orbit, one-edge source instance whose orbit objects live at
addresses 10 and 11. -/
def c7Src : Instance :=
  ⟨1, 2, [dummySat, dummySat], [10, 11], [⟨10, 11, 5⟩]⟩

/-- The fresh addresses of the orbit copies. -/
def c7Fresh : List ℕ := [20, 21]

/-- An unrelated destination for the assignment operator. -/
def c7Dst : Instance := ⟨9, 9, [dummySat], [30], []⟩

/-- A loader state inside the orbit section with one orbit loaded. -/
def c8OrbSt : LoaderState := ⟨1, 7, 8, [dummySat], []⟩

/-- A loader state inside the edge section with one orbit loaded. -/
def c8EdgeSt : LoaderState := ⟨2, 7, 8, [dummySat], []⟩

/-- An orbit record whose eccentricity field is malformed. -/
def c8BadOrbit : List (Option ℚ) :=
  [some 0, some 200, none, some 0, some 0, some 0, some 0, some 1]

/-- An edge record referencing the out-of-range orbit index 3. -/
def c8BadEdge : List (Option ℚ) := [some 0, some 3]

/-- Satellite positions for the sphere-intersection discrepancy: both
satellites at height 5102.4 above the x-axis, so the segment between
them passes 5102.4 from the center: inside the hard-coded Earth radius
6378, outside the given radius 1000. -/
noncomputable def c2Sat1 : Vec3 := (-8000, 25512 / 5, 0)

noncomputable def c2Sat2 : Vec3 := (8000, 25512 / 5, 0)

/-- The blocking predicate in the words of the spec and of claim C2:
the ray-sphere quadratic for the central sphere of the GIVEN radius R
(the radius the link carries), with the three not-blocked cases: no
real root; both roots behind the ray origin; both roots at or beyond
the inter-satellite distance. -/
def specSphereBlocked (R : ℝ) (sat1 sat2 : Vec3) : Prop :=
  let diff := sub3 sat2 sat1
  let len := Real.sqrt (dot3 diff diff)
  let direction : Vec3 := (diff.1 / len, diff.2.1 / len, diff.2.2 / len)
  let a := dot3 direction sat1
  let discr := a * a - (dot3 sat1 sat1 - R * R)
  let d1 := -a + Real.sqrt discr
  let d2 := -a - Real.sqrt discr
  let dist_between_sat := Real.sqrt (dot3 (sub3 sat1 sat2) (sub3 sat1 sat2))
  0 ≤ discr ∧ ¬ (d1 < 0 ∧ d2 < 0) ∧
    ¬ (dist_between_sat ≤ d1 ∧ dist_between_sat ≤ d2)

/-
  Lemma layer: association-list maps.
-/

lemma mapGetIns_fst {α : Type} (m : List (ℕ × α)) (k : ℕ) (d : α) :
    (mapGetIns m k d).1 = (mapFind m k).getD d := by
  unfold mapGetIns mapFind
  cases h : m.find? (fun p => decide (p.1 = k)) <;> simp [h]

lemma mapFind_getIns_self {α : Type} (m : List (ℕ × α)) (k : ℕ) (d : α) :
    mapFind (mapGetIns m k d).2 k = some ((mapFind m k).getD d) := by
  unfold mapGetIns mapFind
  cases h : m.find? (fun p => decide (p.1 = k)) with
  | some p => simp [h]
  | none => simp [h, List.find?_append, List.find?]

lemma mapFind_getIns_other {α : Type} (m : List (ℕ × α)) (k : ℕ) (d : α) (k' : ℕ)
    (hne : k' ≠ k) :
    mapFind (mapGetIns m k d).2 k' = mapFind m k' := by
  unfold mapGetIns mapFind
  cases h : m.find? (fun p => decide (p.1 = k)) with
  | some p => simp [h]
  | none =>
    simp only [h, List.find?_append, List.find?]
    cases h2 : m.find? (fun p => decide (p.1 = k')) with
    | some p => simp [h2]
    | none => simp [h2, Ne.symm hne]

lemma mapFind_getD_getIns {α : Type} (m : List (ℕ × α)) (k : ℕ) (d : α) (k' : ℕ) :
    (mapFind (mapGetIns m k d).2 k').getD d = (mapFind m k').getD d := by
  by_cases hk : k' = k
  · subst hk
    rw [mapFind_getIns_self]
    rfl
  · rw [mapFind_getIns_other m k d k' hk]

lemma mapGetIns_getIns_fst {α : Type} (m : List (ℕ × α)) (k : ℕ) (d : α) (k' : ℕ) :
    (mapGetIns (mapGetIns m k d).2 k' d).1 = (mapFind m k').getD d := by
  rw [mapGetIns_fst, mapFind_getD_getIns]

/-
  Lemma layer: fmodf and truncation.
-/

lemma fmodQ_add_trunc (a b : ℚ) :
    fmodQ a b + b * (truncQ (a / b) : ℚ) = a := by
  unfold fmodQ
  ring

lemma truncQ_of_nonneg {q : ℚ} (h : 0 ≤ q) : truncQ q = ⌊q⌋ := by
  unfold truncQ
  exact if_pos h

lemma fmodQ_nonneg {a b : ℚ} (ha : 0 ≤ a) (hb : 0 < b) : 0 ≤ fmodQ a b := by
  unfold fmodQ
  rw [truncQ_of_nonneg (div_nonneg ha hb.le)]
  have h1 : (⌊a / b⌋ : ℚ) ≤ a / b := Int.floor_le _
  have h2 : b * (⌊a / b⌋ : ℚ) ≤ b * (a / b) :=
    mul_le_mul_of_nonneg_left h1 hb.le
  rw [mul_div_cancel₀ a hb.ne'] at h2
  linarith

lemma fmodQ_lt {a b : ℚ} (ha : 0 ≤ a) (hb : 0 < b) : fmodQ a b < b := by
  unfold fmodQ
  rw [truncQ_of_nonneg (div_nonneg ha hb.le)]
  have h1 : a / b < (⌊a / b⌋ : ℚ) + 1 := Int.lt_floor_add_one _
  have h2 : b * (a / b) < b * ((⌊a / b⌋ : ℚ) + 1) :=
    mul_lt_mul_of_pos_left h1 hb
  rw [mul_div_cancel₀ a hb.ne'] at h2
  linarith

/-
  Lemma layer: nextTimeWithEvent.
-/

lemma nextTimeWithEvent_mem (tl : Timeline) (t : ℚ) (h : tl ≠ []) :
    ∃ iv, iv ∈ tl ∧ nextTimeWithEvent tl t = iv.t_begin := by
  unfold nextTimeWithEvent
  cases hf : tl.find? (fun iv => decide (t ≤ iv.t_begin)) with
  | some iv =>
    exact ⟨iv, List.mem_of_find?_eq_some hf, rfl⟩
  | none =>
    cases tl with
    | nil => exact absurd rfl h
    | cons a l => exact ⟨a, List.mem_cons_self a l, rfl⟩

/-
  Lemma layer: decomposition of the solver queries through the state
  lookups.
-/

lemma nextVisibility_fst (st : SolverState) (eid : ℕ) (t0 : ℚ) :
    (Solver.nextVisibility st eid t0).1 =
      nvPure (st.edges.getD eid defaultISL) (tlook st eid) t0 := by
  unfold Solver.nextVisibility nvPure tlook
  rw [← mapGetIns_fst]
  dsimp only
  split
  · rfl
  · split <;> rfl

lemma nextVisibility_snd (st : SolverState) (eid : ℕ) (t0 : ℚ) :
    (Solver.nextVisibility st eid t0).2 =
      ⟨st.edges, (mapGetIns st.edge_time_slots eid []).2,
       st.satellite_orientation, st.step_size⟩ := by
  unfold Solver.nextVisibility
  dsimp only
  split
  · rfl
  · split <;> rfl

lemma StEquiv.refl (s : SolverState) : StEquiv s s :=
  ⟨rfl, rfl, fun _ => rfl, fun _ => rfl⟩

lemma StEquiv.symm {s t : SolverState} (h : StEquiv s t) : StEquiv t s :=
  ⟨h.edges_eq.symm, h.step_eq.symm, fun k => (h.tl_eq k).symm, fun k => (h.or_eq k).symm⟩

lemma StEquiv.trans {s t u : SolverState} (h : StEquiv s t) (h2 : StEquiv t u) :
    StEquiv s u :=
  ⟨h.edges_eq.trans h2.edges_eq, h.step_eq.trans h2.step_eq,
   fun k => (h.tl_eq k).trans (h2.tl_eq k), fun k => (h.or_eq k).trans (h2.or_eq k)⟩

lemma nextVisibility_equiv (st : SolverState) (eid : ℕ) (t0 : ℚ) :
    StEquiv st (Solver.nextVisibility st eid t0).2 := by
  rw [nextVisibility_snd]
  refine ⟨rfl, rfl, fun k => ?_, fun k => rfl⟩
  unfold tlook
  exact (mapFind_getD_getIns st.edge_time_slots eid [] k).symm

lemma nextVisibility_congr {s t : SolverState} (h : StEquiv s t) (eid : ℕ) (t0 : ℚ) :
    (Solver.nextVisibility s eid t0).1 = (Solver.nextVisibility t eid t0).1 := by
  rw [nextVisibility_fst, nextVisibility_fst, h.edges_eq, h.tl_eq]

lemma nextCommGo_pure (e : InterSatelliteLink) (s1 s2 : OrientEvent)
    (slots : List (ℕ × Timeline)) (eid : ℕ) (tl : Timeline) (bound : FVal) (step : ℚ)
    (h : mapFind slots eid = some tl) :
    ∀ fuel t, Solver.nextCommGo e s1 s2 slots eid bound step fuel t =
      ncGoPure e s1 s2 tl bound step fuel t := by
  intro fuel
  induction fuel with
  | zero => intro t; rfl
  | succ n ih =>
    intro t
    unfold Solver.nextCommGo ncGoPure
    rw [h]
    dsimp only
    split
    · repeat' split
      all_goals first | rfl | exact ih _
    · rfl

lemma nextCommunication_fst (st : SolverState) (eid : ℕ) (t0 : ℚ) (fuel : ℕ) :
    (Solver.nextCommunication st eid t0 fuel).1 =
      ncPure (st.edges.getD eid defaultISL) (tlook st eid)
        (olook st (st.edges.getD eid defaultISL).v1)
        (olook st (st.edges.getD eid defaultISL).v2) st.step_size t0 fuel := by
  unfold Solver.nextCommunication ncPure olook
  rw [← nextVisibility_fst]
  dsimp only
  cases hnv : (Solver.nextVisibility st eid t0).1 with
  | inf => rfl
  | val tv =>
    rw [nextVisibility_snd]
    dsimp only
    rw [mapGetIns_fst, mapGetIns_getIns_fst]
    split
    · rfl
    · exact nextCommGo_pure _ _ _ _ eid (tlook st eid) _ _
        (mapFind_getIns_self st.edge_time_slots eid []) fuel tv

lemma nextCommunication_equiv (st : SolverState) (eid : ℕ) (t0 : ℚ) (fuel : ℕ) :
    StEquiv st (Solver.nextCommunication st eid t0 fuel).2 := by
  unfold Solver.nextCommunication
  dsimp only
  cases hnv : (Solver.nextVisibility st eid t0).1 with
  | inf => exact nextVisibility_equiv st eid t0
  | val tv =>
    rw [nextVisibility_snd]
    dsimp only
    split
    all_goals
      refine ⟨rfl, rfl, fun k => ?_, fun k => ?_⟩
    all_goals
      first
      | (unfold tlook
         exact (mapFind_getD_getIns st.edge_time_slots eid [] k).symm)
      | (unfold olook
         rw [show ∀ (m : List (ℕ × OrientEvent)) k1 k2 k,
              (mapFind (mapGetIns (mapGetIns m k1 default).2 k2 default).2 k).getD default
                = (mapFind m k).getD default from
              fun m k1 k2 k => by rw [mapFind_getD_getIns, mapFind_getD_getIns]])

lemma nextCommunication_congr {s t : SolverState} (h : StEquiv s t)
    (eid : ℕ) (t0 : ℚ) (fuel : ℕ) :
    (Solver.nextCommunication s eid t0 fuel).1 =
      (Solver.nextCommunication t eid t0 fuel).1 := by
  rw [nextCommunication_fst, nextCommunication_fst, h.edges_eq, h.tl_eq,
    h.or_eq, h.or_eq, h.step_eq]

lemma ntwe_nonneg (tl : Timeline) (t : ℚ) (hpos : ∀ iv ∈ tl, 0 ≤ iv.t_begin) :
    0 ≤ nextTimeWithEvent tl t := by
  cases tl with
  | nil => simp [nextTimeWithEvent, List.find?]
  | cons a l =>
    obtain ⟨iv, hm, he⟩ := nextTimeWithEvent_mem (a :: l) t (by simp)
    rw [he]
    exact hpos iv hm

lemma nvPure_inf_iff (e : InterSatelliteLink) (tl : Timeline) (t0 : ℚ) :
    nvPure e tl t0 = .inf ↔ tl = [] := by
  unfold nvPure
  dsimp only
  by_cases h : tl.length = 0
  · rw [if_pos h]
    simp [List.length_eq_zero.mp h]
  · rw [if_neg h]
    have hne : ¬ tl = [] := fun he => h (by simp [he])
    split <;> simp [hne]

lemma nvPure_ge (e : InterSatelliteLink) (tl : Timeline) (t0 q : ℚ)
    (h0 : 0 ≤ t0) (hp : 0 < e.period) (hpos : ∀ iv ∈ tl, 0 ≤ iv.t_begin)
    (h : nvPure e tl t0 = .val q) : t0 ≤ q := by
  unfold nvPure at h
  dsimp only at h
  by_cases hlen : tl.length = 0
  · rw [if_pos hlen] at h
    exact absurd h (by simp)
  · rw [if_neg hlen] at h
    have hid : fmodQ t0 e.period + e.period * (truncQ (t0 / e.period) : ℚ) = t0 :=
      fmodQ_add_trunc t0 e.period
    have hlt : fmodQ t0 e.period < e.period := fmodQ_lt h0 hp
    have hnn : 0 ≤ nextTimeWithEvent tl (fmodQ t0 e.period) := ntwe_nonneg tl _ hpos
    split at h
    · cases h
      linarith
    · rename_i hw
      push_neg at hw
      cases h
      linarith

/-- C4: for every link and every time t0 >= 0, nextVisibility(link, t0)
is at least t0, and it equals the INFINITY sentinel exactly when the
visibility cache entry of the link is empty.  Hypotheses: the link has
a positive period and the cached interval starts are nonnegative (as
createCache produces them). -/
theorem c4_nextVisibility_ge (st : SolverState) (eid : ℕ) (t0 : ℚ)
    (h0 : 0 ≤ t0) (hp : 0 < (st.edges.getD eid defaultISL).period)
    (hpos : ∀ iv ∈ tlook st eid, 0 ≤ iv.t_begin) :
    ((Solver.nextVisibility st eid t0).1 = .inf ↔ tlook st eid = []) ∧
    (∀ q, (Solver.nextVisibility st eid t0).1 = .val q → t0 ≤ q) := by
  rw [nextVisibility_fst]
  exact ⟨nvPure_inf_iff _ _ _, fun q h => nvPure_ge _ _ t0 q h0 hp hpos h⟩

/-- Witness for C4 at a concrete solver state: the link with cache
interval [0, 10) satisfies both conclusions at t0 = 0. -/
theorem c4_witness :
    ((Solver.nextVisibility wSt 0 0).1 = .inf ↔ tlook wSt 0 = []) ∧ (0 : ℚ) ≤ 0 :=
  ⟨(c4_nextVisibility_ge wSt 0 0 (le_refl 0)
      (by norm_num [wSt, wISL, List.getD])
      (by norm_num [tlook, wSt, mapFind, List.find?])).1,
   (c4_nextVisibility_ge wSt 0 0 (le_refl 0)
      (by norm_num [wSt, wISL, List.getD])
      (by norm_num [tlook, wSt, mapFind, List.find?])).2 0
      (by norm_num [Solver.nextVisibility, wSt, wISL, mapGetIns, mapFind, List.find?,
        nextTimeWithEvent, fmodQ, truncQ, defaultISL])⟩

/-- C9: nextVisibility and nextCommunication are pure queries: the only
state either call touches are the default-inserts of std::map
operator[], and those are invisible to every later query, so a query
run after another query returns exactly what it would have returned on
the original state (instantiating the primed arguments with the
unprimed ones gives that repeated calls agree). -/
theorem c9_queries_pure (st : SolverState) (eid : ℕ) (t0 : ℚ) (fuel : ℕ)
    (eid2 : ℕ) (t02 : ℚ) (fuel2 : ℕ) :
    ((Solver.nextVisibility (Solver.nextVisibility st eid t0).2 eid2 t02).1 =
        (Solver.nextVisibility st eid2 t02).1) ∧
    ((Solver.nextCommunication (Solver.nextVisibility st eid t0).2 eid2 t02 fuel2).1 =
        (Solver.nextCommunication st eid2 t02 fuel2).1) ∧
    ((Solver.nextVisibility (Solver.nextCommunication st eid t0 fuel).2 eid2 t02).1 =
        (Solver.nextVisibility st eid2 t02).1) ∧
    ((Solver.nextCommunication (Solver.nextCommunication st eid t0 fuel).2 eid2 t02 fuel2).1 =
        (Solver.nextCommunication st eid2 t02 fuel2).1) :=
  ⟨nextVisibility_congr (nextVisibility_equiv st eid t0).symm eid2 t02,
   nextCommunication_congr (nextVisibility_equiv st eid t0).symm eid2 t02 fuel2,
   nextVisibility_congr (nextCommunication_equiv st eid t0 fuel).symm eid2 t02,
   nextCommunication_congr (nextCommunication_equiv st eid t0 fuel).symm eid2 t02 fuel2⟩

lemma lowerBoundGo_spec (st0 : SolverState) :
    ∀ (eids : List ℕ) (lb : ℚ) (st : SolverState), StEquiv st0 st →
      lb ≤ (Solver.lowerBoundGo eids lb st).1 ∧
      ((Solver.lowerBoundGo eids lb st).1 = lb ∨
        ∃ eid ∈ eids, (Solver.nextVisibility st0 eid 0).1 =
          .val ((Solver.lowerBoundGo eids lb st).1)) ∧
      (∀ eid ∈ eids, ∀ q, (Solver.nextVisibility st0 eid 0).1 = .val q →
        q ≤ (Solver.lowerBoundGo eids lb st).1) := by
  intro eids
  induction eids with
  | nil =>
    intro lb st _
    exact ⟨le_refl lb, Or.inl rfl, fun eid h => absurd h (List.not_mem_nil eid)⟩
  | cons eid rest ih =>
    intro lb st hequiv
    have hval : (Solver.nextVisibility st eid 0).1 = (Solver.nextVisibility st0 eid 0).1 :=
      nextVisibility_congr hequiv.symm eid 0
    have hequiv2 : StEquiv st0 (Solver.nextVisibility st eid 0).2 :=
      hequiv.trans (nextVisibility_equiv st eid 0)
    unfold Solver.lowerBoundGo
    dsimp only
    cases hnv : (Solver.nextVisibility st eid 0).1 with
    | inf =>
      obtain ⟨h1, h2, h3⟩ := ih lb _ hequiv2
      refine ⟨h1, ?_, ?_⟩
      · rcases h2 with h | ⟨eid2, hmem, hv⟩
        · exact Or.inl h
        · exact Or.inr ⟨eid2, List.mem_cons_of_mem _ hmem, hv⟩
      · intro eid2 hmem q hq
        rcases List.mem_cons.mp hmem with rfl | hmem2
        · rw [← hval, hnv] at hq
          exact absurd hq (by simp)
        · exact h3 eid2 hmem2 q hq
    | val t =>
      dsimp only
      by_cases hlt : lb < t
      · rw [if_pos hlt]
        obtain ⟨h1, h2, h3⟩ := ih t _ hequiv2
        refine ⟨le_trans hlt.le h1, ?_, ?_⟩
        · rcases h2 with h | ⟨eid2, hmem, hv⟩
          · refine Or.inr ⟨eid, List.mem_cons_self _ _, ?_⟩
            rw [← hval, hnv, h]
          · exact Or.inr ⟨eid2, List.mem_cons_of_mem _ hmem, hv⟩
        · intro eid2 hmem q hq
          rcases List.mem_cons.mp hmem with rfl | hmem2
          · rw [← hval, hnv] at hq
            cases hq
            exact h1
          · exact h3 eid2 hmem2 q hq
      · rw [if_neg hlt]
        obtain ⟨h1, h2, h3⟩ := ih lb _ hequiv2
        refine ⟨h1, ?_, ?_⟩
        · rcases h2 with h | ⟨eid2, hmem, hv⟩
          · exact Or.inl h
          · exact Or.inr ⟨eid2, List.mem_cons_of_mem _ hmem, hv⟩
        · intro eid2 hmem q hq
          rcases List.mem_cons.mp hmem with rfl | hmem2
          · rw [← hval, hnv] at hq
            cases hq
            exact le_trans (not_lt.mp hlt) h1
          · exact h3 eid2 hmem2 q hq

/-- C1 counterexample: on the state with two links of first visibility
times 1 and 2, lowerBound returns 2, which is one of the strictly
positive first-visibility times but not their minimum (1 is also one
and 2 is not at most 1): the code keeps the largest finite value, not
the smallest. -/
theorem c1_counterexample :
    (Solver.lowerBound c1St).1 = 2 ∧ (1 : ℚ) ∈ firstVisibilities c1St ∧
      ¬ ((2 : ℚ) ≤ 1) := by
  refine ⟨?_, ?_, by norm_num⟩
  · norm_num [Solver.lowerBound, Solver.lowerBoundGo, Solver.nextVisibility, c1St, wISL,
      mapGetIns, mapFind, List.find?, nextTimeWithEvent, fmodQ, truncQ, defaultISL,
      List.range_succ]
  · norm_num [firstVisibilities, Solver.nextVisibility, c1St, wISL, mapGetIns, mapFind,
      List.find?, nextTimeWithEvent, fmodQ, truncQ, defaultISL, List.range_succ]

/-- C1 amended: lowerBound returns the largest value that is 0 or a
finite nextVisibility(e, 0): the result is nonnegative, is 0 or one of
the finite first-visibility values, and bounds every finite
first-visibility value from above (a maximum, where the claim said
minimum). -/
theorem c1_lowerBound_is_max (st : SolverState) :
    0 ≤ (Solver.lowerBound st).1 ∧
    ((Solver.lowerBound st).1 = 0 ∨
      ∃ eid, eid < st.edges.length ∧
        (Solver.nextVisibility st eid 0).1 = .val ((Solver.lowerBound st).1)) ∧
    (∀ eid, eid < st.edges.length → ∀ q,
      (Solver.nextVisibility st eid 0).1 = .val q → q ≤ (Solver.lowerBound st).1) := by
  obtain ⟨h1, h2, h3⟩ :=
    lowerBoundGo_spec st (List.range st.edges.length) 0 st (StEquiv.refl st)
  unfold Solver.lowerBound
  refine ⟨h1, ?_, ?_⟩
  · rcases h2 with h | ⟨eid, hm, hv⟩
    · exact Or.inl h
    · exact Or.inr ⟨eid, List.mem_range.mp hm, hv⟩
  · intro eid hlt q hq
    exact h3 eid (List.mem_range.mpr hlt) q hq

/-- Witness for the amended C1: on the concrete two-link state, the
first-visibility value 1 of link 0 is bounded by the returned lower
bound. -/
theorem c1_witness : (1 : ℚ) ≤ (Solver.lowerBound c1St).1 :=
  (c1_lowerBound_is_max c1St).2.2 0 (by norm_num [c1St]) 1
    (by norm_num [Solver.nextVisibility, c1St, wISL, mapGetIns, mapFind, List.find?,
      nextTimeWithEvent, fmodQ, truncQ, defaultISL])

lemma lowerBoundGo_all_inf (st0 : SolverState) :
    ∀ (eids : List ℕ) (lb : ℚ) (st : SolverState), StEquiv st0 st →
      (∀ eid ∈ eids, (Solver.nextVisibility st0 eid 0).1 = .inf) →
      (Solver.lowerBoundGo eids lb st).1 = lb := by
  intro eids
  induction eids with
  | nil => intro lb st _ _; rfl
  | cons eid rest ih =>
    intro lb st hequiv hall
    have hval : (Solver.nextVisibility st eid 0).1 = (Solver.nextVisibility st0 eid 0).1 :=
      nextVisibility_congr hequiv.symm eid 0
    unfold Solver.lowerBoundGo
    dsimp only
    rw [hval, hall eid (List.mem_cons_self _ _)]
    exact ih lb _ (hequiv.trans (nextVisibility_equiv st eid 0))
      (fun e h => hall e (List.mem_cons_of_mem _ h))

/-- C10: when the instance has no links, or every link answers
nextVisibility(e, 0) = INFINITY (empty caches), the accumulator of
lowerBound is never replaced and 0 is returned. -/
theorem c10_lowerBound_zero (st : SolverState)
    (h : ∀ eid ∈ List.range st.edges.length, (Solver.nextVisibility st eid 0).1 = .inf) :
    (Solver.lowerBound st).1 = 0 :=
  lowerBoundGo_all_inf st (List.range st.edges.length) 0 st (StEquiv.refl st) h

/-- Witness for C10: the one-link state with an empty cache map yields
lower bound 0. -/
theorem c10_witness : (Solver.lowerBound c10St).1 = 0 :=
  c10_lowerBound_zero c10St
    (by norm_num [c10St, Solver.nextVisibility, mapGetIns, mapFind, List.find?,
      List.range_succ])

lemma ncGoPure_ge (e : InterSatelliteLink) (s1 s2 : OrientEvent) (tl : Timeline)
    (bound : FVal) (step : ℚ) (hstep : 0 ≤ step) (hp : 0 < e.period)
    (hpos : ∀ iv ∈ tl, 0 ≤ iv.t_begin) :
    ∀ fuel t q, 0 ≤ t → ncGoPure e s1 s2 tl bound step fuel t = some (.val q) →
      t ≤ q := by
  intro fuel
  induction fuel with
  | zero =>
    intro t q _ h
    exact absurd h (by simp [ncGoPure])
  | succ n ih =>
    intro t q ht h
    unfold ncGoPure at h
    dsimp only at h
    by_cases hble : FVal.Le (.val t) bound
    · rw [if_pos hble] at h
      have h1 : fmodQ t e.period < e.period := fmodQ_lt ht hp
      have h2 : 0 ≤ nextTimeWithEvent tl (fmodQ t e.period) := ntwe_nonneg tl _ hpos
      by_cases hblk : e.isBlocked t = true
      · rw [if_pos hblk] at h
        by_cases hw : nextTimeWithEvent tl (fmodQ t e.period) < fmodQ t e.period
        · rw [if_pos hw] at h
          have hT : t ≤ t + (nextTimeWithEvent tl (fmodQ t e.period) + e.period -
              fmodQ t e.period) := by linarith
          split at h
          · simp only [Option.some.injEq, FVal.val.injEq] at h
            linarith [h ▸ hT]
          · have := ih _ q (by linarith) h
            linarith
        · rw [if_neg hw] at h
          push_neg at hw
          have hT : t ≤ t + (nextTimeWithEvent tl (fmodQ t e.period) -
              fmodQ t e.period) := by linarith
          split at h
          · simp only [Option.some.injEq, FVal.val.injEq] at h
            linarith [h ▸ hT]
          · have := ih _ q (by linarith) h
            linarith
      · rw [if_neg hblk] at h
        split at h
        · simp only [Option.some.injEq, FVal.val.injEq] at h
          exact h.le
        · have := ih _ q (by linarith) h
          linarith
    · rw [if_neg hble] at h
      exact absurd h (by simp)

/-- C5: whenever nextCommunication(link, t0) returns a value (the fuel
models the float loop iterations the source actually performs), that
value is at least nextVisibility(link, t0): the search starts at the
first visible time and the loop variable never decreases.  Hypotheses:
nonnegative start time and step size, positive period, nonnegative
cached interval starts. -/
theorem c5_nextComm_ge_nextVis (st : SolverState) (eid : ℕ) (t0 : ℚ) (fuel : ℕ)
    (r : FVal) (h0 : 0 ≤ t0)
    (hp : 0 < (st.edges.getD eid defaultISL).period)
    (hstep : 0 ≤ st.step_size)
    (hpos : ∀ iv ∈ tlook st eid, 0 ≤ iv.t_begin)
    (h : (Solver.nextCommunication st eid t0 fuel).1 = some r) :
    FVal.Le (Solver.nextVisibility st eid t0).1 r := by
  rw [nextCommunication_fst] at h
  rw [nextVisibility_fst]
  unfold ncPure at h
  cases hnv : nvPure (st.edges.getD eid defaultISL) (tlook st eid) t0 with
  | inf =>
    rw [hnv] at h
    dsimp only at h
    simp only [Option.some.injEq] at h
    rw [← h]
    trivial
  | val tv =>
    rw [hnv] at h
    dsimp only at h
    split at h
    · simp only [Option.some.injEq] at h
      rw [← h]
      exact le_refl tv
    · cases r with
      | inf => trivial
      | val q =>
        have htv0 : 0 ≤ tv :=
          le_trans h0 (nvPure_ge _ _ _ _ h0 hp hpos hnv)
        exact ncGoPure_ge _ _ _ _ _ st.step_size hstep hp hpos fuel tv q htv0 h

/-- Witness for C5: on the benign one-link state the two queries agree
at the first visible time 0. -/
theorem c5_witness : FVal.Le (Solver.nextVisibility wSt 0 0).1 (FVal.val 0) :=
  c5_nextComm_ge_nextVis wSt 0 0 1 (FVal.val 0) (le_refl 0)
    (by norm_num [wSt, wISL, List.getD])
    (by norm_num [wSt])
    (by norm_num [tlook, wSt, mapFind, List.find?])
    (by norm_num [Solver.nextCommunication, Solver.nextVisibility, wSt, wISL,
      mapGetIns, mapFind, List.find?, nextTimeWithEvent, fmodQ, truncQ, defaultISL])

lemma ncGoPure_term (e : InterSatelliteLink) (s1 s2 : OrientEvent) (tl : Timeline)
    (bq step : ℚ) (hstep : 0 < step) (hp : 0 < e.period)
    (hpos : ∀ iv ∈ tl, 0 ≤ iv.t_begin) :
    ∀ (n : ℕ) (t : ℚ), 0 ≤ t → bq < t + (n : ℚ) * step →
      ncGoPure e s1 s2 tl (.val bq) step (n + 1) t ≠ none := by
  intro n
  induction n with
  | zero =>
    intro t ht hb
    norm_num at hb
    unfold ncGoPure
    rw [if_neg]
    · simp
    · show ¬ FVal.Le (.val t) (.val bq)
      simp only [FVal.Le]
      linarith
  | succ n ih =>
    intro t ht hb
    push_cast at hb
    unfold ncGoPure
    dsimp only
    by_cases hble : FVal.Le (.val t) (.val bq)
    · rw [if_pos hble]
      have h1 : fmodQ t e.period < e.period := fmodQ_lt ht hp
      have h2 : 0 ≤ nextTimeWithEvent tl (fmodQ t e.period) := ntwe_nonneg tl _ hpos
      by_cases hblk : e.isBlocked t = true
      · rw [if_pos hblk]
        by_cases hw : nextTimeWithEvent tl (fmodQ t e.period) < fmodQ t e.period
        · rw [if_pos hw]
          split
          · simp
          · apply ih
            · linarith
            · linarith
        · rw [if_neg hw]
          push_neg at hw
          split
          · simp
          · apply ih
            · linarith
            · linarith
      · rw [if_neg hblk]
        split
        · simp
        · apply ih
          · linarith
          · linarith
    · rw [if_neg hble]
      simp

lemma ncPure_term (e : InterSatelliteLink) (tl : Timeline) (s1 s2 : OrientEvent)
    (step t0 : ℚ) (hrs1 : 0 < e.rs1) (hrs2 : 0 < e.rs2) (hstep : 0 < step)
    (hp : 0 < e.period) (hpos : ∀ iv ∈ tl, 0 ≤ iv.t_begin) (ht0 : 0 ≤ t0) :
    ∃ fuel, ncPure e tl s1 s2 step t0 fuel ≠ none := by
  cases hnv : nvPure e tl t0 with
  | inf =>
    refine ⟨0, ?_⟩
    unfold ncPure
    rw [hnv]
    simp
  | val tv =>
    by_cases hca : e.canAlign s1 s2 tv = true
    · refine ⟨0, ?_⟩
      unfold ncPure
      rw [hnv]
      dsimp only
      rw [if_pos hca]
      simp
    · have hbq : ncBound e t0 =
          FVal.val (t0 + (max (pi_f / e.rs1) (pi_f / e.rs2) + e.period)) := by
        unfold ncBound fdiv
        rw [if_neg hrs1.ne', if_neg hrs2.ne']
        rfl
      have htv0 : 0 ≤ tv := le_trans ht0 (nvPure_ge _ _ _ _ ht0 hp hpos hnv)
      obtain ⟨n, hn⟩ :=
        exists_nat_gt ((t0 + (max (pi_f / e.rs1) (pi_f / e.rs2) + e.period) - tv) / step)
      refine ⟨n + 1, ?_⟩
      unfold ncPure
      rw [hnv]
      dsimp only
      rw [if_neg hca, hbq]
      apply ncGoPure_term e s1 s2 tl _ step hstep hp hpos n tv htv0
      have h2 := (div_lt_iff₀ hstep).mp hn
      linarith

/-- C3 amended: provided both rotation speeds of the link are strictly
positive (so the horizon t_max = max(pi/rs1, pi/rs2) + period is
finite), the step size is positive, the period is positive, the cached
interval starts are nonnegative and the start time is nonnegative,
nextCommunication(link, t0) terminates: some finite number of loop
iterations makes it return (the value being the found time, or the
INFINITY sentinel when the horizon is exceeded).  With a zero rotation
speed the horizon is the float INFINITY and the loop need not
terminate, as the counterexample shows, so the claim as stated is
false. -/
theorem c3_nextComm_terminates (st : SolverState) (eid : ℕ) (t0 : ℚ)
    (hrs1 : 0 < (st.edges.getD eid defaultISL).rs1)
    (hrs2 : 0 < (st.edges.getD eid defaultISL).rs2)
    (hstep : 0 < st.step_size)
    (hp : 0 < (st.edges.getD eid defaultISL).period)
    (hpos : ∀ iv ∈ tlook st eid, 0 ≤ iv.t_begin)
    (ht0 : 0 ≤ t0) :
    NCTerminates st eid t0 := by
  obtain ⟨fuel, hf⟩ :=
    ncPure_term (st.edges.getD eid defaultISL) (tlook st eid)
      (olook st (st.edges.getD eid defaultISL).v1)
      (olook st (st.edges.getD eid defaultISL).v2)
      st.step_size t0 hrs1 hrs2 hstep hp hpos ht0
  refine ⟨fuel, ?_⟩
  rw [nextCommunication_fst]
  exact hf

/-- Witness for the amended C3: the benign link with rotation speeds 1
terminates. -/
theorem c3_witness : NCTerminates wSt 0 0 :=
  c3_nextComm_terminates wSt 0 0
    (by norm_num [wSt, wISL, List.getD])
    (by norm_num [wSt, wISL, List.getD])
    (by norm_num [wSt])
    (by norm_num [wSt, wISL, List.getD])
    (by norm_num [tlook, wSt, mapFind, List.find?])
    (le_refl 0)

lemma c3_loop_none :
    ∀ fuel t, ncGoPure c3ISL default default [⟨0, 10⟩] FVal.inf 1 fuel t = none := by
  intro fuel
  induction fuel with
  | zero => intro t; rfl
  | succ n ih =>
    intro t
    unfold ncGoPure
    rw [if_pos (show (FVal.val t).Le FVal.inf from trivial)]
    simp only [c3ISL]
    norm_num
    exact ih (t + 1)

/-- C3 counterexample: on the link with rotation speed 0 on both
satellites (t_max becomes the float INFINITY), never blocked and never
alignable, the nextCommunication search loop never exits: no amount of
fuel makes the call return, i.e. the C++ loop runs forever. -/
theorem c3_counterexample : ¬ NCTerminates c3St 0 0 := by
  rintro ⟨fuel, hne⟩
  apply hne
  rw [nextCommunication_fst]
  show ncPure c3ISL [⟨0, 10⟩] default default 1 0 fuel = none
  unfold ncPure
  have hnv : nvPure c3ISL [⟨0, 10⟩] 0 = FVal.val 0 := by
    norm_num [nvPure, c3ISL, nextTimeWithEvent, List.find?, fmodQ, truncQ]
  rw [hnv]
  dsimp only
  rw [if_neg (by simp [c3ISL])]
  have hbound : ncBound c3ISL 0 = FVal.inf := by
    norm_num [ncBound, c3ISL, fdiv, FVal.maxF, FVal.add]
  rw [hbound]
  exact c3_loop_none fuel 0

lemma find?_range_min (p : ℕ → Bool) (n k : ℕ)
    (h : (List.range n).find? p = some k) : ∀ j, j < k → p j = false := by
  rw [List.find?_eq_some] at h
  obtain ⟨hp, as, bs, heq, hall⟩ := h
  have hlen : as.length < n := by
    have := congrArg List.length heq
    simp at this
    omega
  have hk : k = as.length := by
    have h1 := congrArg (fun l => l[as.length]?) heq
    simp only at h1
    rw [List.getElem?_range hlen, List.getElem?_append_right (le_refl as.length)] at h1
    simp at h1
    exact h1.symm
  intro j hj
  have hjlen : j < as.length := hk ▸ hj
  have h2 := congrArg (fun l => l[j]?) heq
  simp only at h2
  rw [List.getElem?_range (lt_trans hjlen hlen), List.getElem?_append_left hjlen] at h2
  have hmem : j ∈ as := List.getElem?_mem h2.symm
  simpa using hall j hmem

lemma findNextVisiblity_val (e : InterSatelliteLink) (step t0 v : ℚ) (hstep : 0 < step)
    (h : Solver.findNextVisiblity e step t0 = .val v) :
    t0 ≤ v ∧ e.isBlocked v = false ∧ (∃ k : ℕ, v = t0 + (k : ℚ) * step) ∧
    (∀ k : ℕ, t0 + (k : ℚ) * step < v → e.isBlocked (t0 + (k : ℚ) * step) = true) := by
  unfold Solver.findNextVisiblity at h
  cases hf : (List.range (iterCount e.period step)).find?
      (fun (k : ℕ) => ! e.isBlocked (t0 + (k : ℚ) * step)) with
  | none =>
    rw [hf] at h
    exact absurd h (by simp)
  | some k =>
    rw [hf] at h
    simp only [FVal.val.injEq] at h
    have hp := List.find?_some hf
    have hmin := find?_range_min _ _ _ hf
    subst h
    refine ⟨le_add_of_nonneg_right (mul_nonneg (Nat.cast_nonneg k) hstep.le),
      by simpa using hp, ⟨k, rfl⟩, ?_⟩
    intro k2 hk2
    have hk2q : (k2 : ℚ) < (k : ℚ) :=
      lt_of_mul_lt_mul_right (by linarith) hstep.le
    have hk2n : k2 < k := by exact_mod_cast hk2q
    simpa using hmin k2 hk2n

lemma findLastVisible_val (e : InterSatelliteLink) (step t0 te : ℚ) (hstep : 0 < step)
    (hb0 : e.isBlocked t0 = false)
    (h : Solver.findLastVisible e step t0 = .val te) :
    t0 ≤ te ∧ e.isBlocked (te + step) = true ∧
    (∀ k : ℕ, t0 + (k : ℚ) * step ≤ te → e.isBlocked (t0 + (k : ℚ) * step) = false) := by
  unfold Solver.findLastVisible at h
  cases hf : (List.range (iterCount e.period step)).find?
      (fun (k : ℕ) => e.isBlocked (t0 + (k : ℚ) * step)) with
  | none =>
    rw [hf] at h
    exact absurd h (by simp)
  | some k0 =>
    rw [hf] at h
    simp only [FVal.val.injEq] at h
    have hpk := List.find?_some hf
    have hmin := find?_range_min _ _ _ hf
    have hk0 : k0 ≠ 0 := by
      intro h0
      subst h0
      norm_num at hpk
      rw [hb0] at hpk
      exact Bool.false_ne_true hpk
    have hk01 : (1 : ℚ) ≤ (k0 : ℚ) := by
      exact_mod_cast Nat.one_le_iff_ne_zero.mpr hk0
    have hk0s : step ≤ (k0 : ℚ) * step := by
      calc step = 1 * step := (one_mul step).symm
      _ ≤ (k0 : ℚ) * step := mul_le_mul_of_nonneg_right hk01 hstep.le
    subst h
    refine ⟨by linarith, ?_, ?_⟩
    · have harith : t0 + (k0 : ℚ) * step - step + step = t0 + (k0 : ℚ) * step := by ring
      rw [harith]
      exact hpk
    · intro k hk
      have hkq : (k : ℚ) * step ≤ ((k0 : ℚ) - 1) * step := by
        ring_nf at hk ⊢
        linarith
      have hklt : (k : ℚ) < (k0 : ℚ) := by
        have h1 : (k : ℚ) ≤ (k0 : ℚ) - 1 :=
          le_of_mul_le_mul_right (by linarith) hstep
        linarith
      have hkn : k < k0 := by exact_mod_cast hklt
      simpa using hmin k hkn

lemma findLastVisible_inf (e : InterSatelliteLink) (step t0 : ℚ)
    (h : Solver.findLastVisible e step t0 = .inf) :
    ∀ k ∈ List.range (iterCount e.period step),
      e.isBlocked (t0 + (k : ℚ) * step) = false := by
  unfold Solver.findLastVisible at h
  cases hf : (List.range (iterCount e.period step)).find?
      (fun (k : ℕ) => e.isBlocked (t0 + (k : ℚ) * step)) with
  | none =>
    intro k hk
    simpa using List.find?_eq_none.mp hf k hk
  | some k0 =>
    rw [hf] at h
    exact absurd h (by simp)

lemma mem_range_iterCount (period step : ℚ) (hstep : 0 < step) (hper : 0 ≤ period)
    (k : ℕ) (h : (k : ℚ) * step ≤ period) : k ∈ List.range (iterCount period step) := by
  rw [List.mem_range]
  unfold iterCount
  rw [if_neg (not_lt.mpr hper)]
  have h1 : (k : ℚ) ≤ period / step := (le_div_iff₀ hstep).mpr h
  have h2 : (k : ℤ) ≤ ⌊period / step⌋ := Int.le_floor.mpr (by exact_mod_cast h1)
  omega

lemma chain_append_single (e : InterSatelliteLink) (step : ℚ) (acc : Timeline)
    (t v tend : ℚ)
    (hchain : List.Chain' (fun a b => a.t_end < b.t_begin ∧
      ∀ j : ℕ, a.t_end + step + (j : ℚ) * step < b.t_begin →
        e.isBlocked (a.t_end + step + (j : ℚ) * step) = true) acc)
    (hend : ∀ iv ∈ acc, iv.t_end < t)
    (hscan : (acc = [] ∧ t = 0) ∨ ∃ last ∈ acc.getLast?, t = last.t_end + step)
    (htv : t ≤ v)
    (hgap : ∀ k : ℕ, t + (k : ℚ) * step < v → e.isBlocked (t + (k : ℚ) * step) = true) :
    List.Chain' (fun a b => a.t_end < b.t_begin ∧
      ∀ j : ℕ, a.t_end + step + (j : ℚ) * step < b.t_begin →
        e.isBlocked (a.t_end + step + (j : ℚ) * step) = true) (acc ++ [⟨v, tend⟩]) := by
  rw [List.chain'_append]
  refine ⟨hchain, List.chain'_singleton _, ?_⟩
  intro x hx y hy
  simp only [List.head?_cons, Option.mem_def, Option.some.injEq] at hy
  subst hy
  have hxe : x.t_end < t := hend x (List.mem_of_mem_getLast? hx)
  rcases hscan with ⟨hnil, _⟩ | ⟨last, hlast, hts⟩
  · rw [hnil] at hx
    exact absurd hx (by simp)
  · have hxl : x = last := by
      rw [Option.mem_def] at hx hlast
      rw [hx] at hlast
      exact Option.some.inj hlast
    subst hxl
    constructor
    · show x.t_end < v
      linarith
    · intro j hj
      have hj2 : t + (j : ℚ) * step < v := by
        rw [hts]
        exact hj
      have hb := hgap j hj2
      rw [hts] at hb
      exact hb

lemma createCacheGo_spec (e : InterSatelliteLink) (step : ℚ) (hstep : 0 < step)
    (hper : 0 < e.period) :
    ∀ (fuel : ℕ) (t : ℚ) (acc : Timeline), 0 ≤ t →
      (∀ iv ∈ acc,
        (0 ≤ iv.t_begin ∧ iv.t_begin ≤ iv.t_end ∧ iv.t_end ≤ e.period ∧
          e.isBlocked iv.t_begin = false ∧
          (iv.t_end = e.period ∨ e.isBlocked (iv.t_end + step) = true) ∧
          (∀ k : ℕ, iv.t_begin + (k : ℚ) * step ≤ iv.t_end →
            e.isBlocked (iv.t_begin + (k : ℚ) * step) = false)) ∧
        iv.t_end < t) →
      List.Chain' (fun a b => a.t_end < b.t_begin ∧
        ∀ j : ℕ, a.t_end + step + (j : ℚ) * step < b.t_begin →
          e.isBlocked (a.t_end + step + (j : ℚ) * step) = true) acc →
      (∀ iv ∈ acc.head?, ∀ j : ℕ, (j : ℚ) * step < iv.t_begin →
        e.isBlocked ((j : ℚ) * step) = true) →
      ((acc = [] ∧ t = 0) ∨ ∃ last ∈ acc.getLast?, t = last.t_end + step) →
      (∀ iv ∈ Solver.createCacheGo e step fuel t acc,
        0 ≤ iv.t_begin ∧ iv.t_begin ≤ iv.t_end ∧ iv.t_end ≤ e.period ∧
        e.isBlocked iv.t_begin = false ∧
        (iv.t_end = e.period ∨ e.isBlocked (iv.t_end + step) = true) ∧
        (∀ k : ℕ, iv.t_begin + (k : ℚ) * step ≤ iv.t_end →
          e.isBlocked (iv.t_begin + (k : ℚ) * step) = false)) ∧
      List.Chain' (fun a b => a.t_end < b.t_begin ∧
        ∀ j : ℕ, a.t_end + step + (j : ℚ) * step < b.t_begin →
          e.isBlocked (a.t_end + step + (j : ℚ) * step) = true)
        (Solver.createCacheGo e step fuel t acc) ∧
      (∀ iv ∈ (Solver.createCacheGo e step fuel t acc).head?,
        ∀ j : ℕ, (j : ℚ) * step < iv.t_begin →
          e.isBlocked ((j : ℚ) * step) = true) := by
  intro fuel
  induction fuel with
  | zero =>
    intro t acc ht hacc hchain hhead _
    exact ⟨fun iv hm => (hacc iv hm).1, hchain, hhead⟩
  | succ n ih =>
    intro t acc ht hacc hchain hhead hscan
    unfold Solver.createCacheGo
    dsimp only
    by_cases h1 : t < e.period
    · rw [if_pos h1]
      cases hfnv : Solver.findNextVisiblity e step t with
      | inf => exact ⟨fun iv hm => (hacc iv hm).1, hchain, hhead⟩
      | val v =>
        dsimp only
        by_cases h2 : e.period ≤ v
        · rw [if_pos h2]
          exact ⟨fun iv hm => (hacc iv hm).1, hchain, hhead⟩
        · rw [if_neg h2]
          push_neg at h2
          obtain ⟨htv, hbv, ⟨k0, hk0⟩, hbmin⟩ :=
            findNextVisiblity_val e step t v hstep hfnv
          have hv0 : 0 ≤ v := le_trans ht htv
          have hhead2 : ∀ (tend : ℚ),
              ∀ iv ∈ (acc ++ [(⟨v, tend⟩ : TimelineEvent)]).head?, ∀ j : ℕ,
                (j : ℚ) * step < iv.t_begin → e.isBlocked ((j : ℚ) * step) = true := by
            intro tend iv hm j hj
            cases acc with
            | nil =>
              simp only [List.nil_append, List.head?_cons, Option.mem_def,
                Option.some.injEq] at hm
              subst hm
              rcases hscan with ⟨_, ht0⟩ | ⟨last, hlast, _⟩
              · subst ht0
                have := hbmin j (by simpa using hj)
                simpa using this
              · exact absurd hlast (by simp)
            | cons a l =>
              simp only [List.cons_append, List.head?_cons, Option.mem_def,
                Option.some.injEq] at hm
              subst hm
              exact hhead _ (by simp) j hj
          have haccP : ∀ (tend : ℚ), t ≤ tend →
              (∀ iv ∈ acc, ((0 ≤ iv.t_begin ∧ iv.t_begin ≤ iv.t_end ∧
                iv.t_end ≤ e.period ∧ e.isBlocked iv.t_begin = false ∧
                (iv.t_end = e.period ∨ e.isBlocked (iv.t_end + step) = true) ∧
                (∀ k : ℕ, iv.t_begin + (k : ℚ) * step ≤ iv.t_end →
                  e.isBlocked (iv.t_begin + (k : ℚ) * step) = false)) ∧
                iv.t_end < tend + step)) := by
            intro tend htend iv hm
            obtain ⟨hP, hend⟩ := hacc iv hm
            exact ⟨hP, by linarith⟩
          cases hflv : Solver.findLastVisible e step v with
          | inf =>
            dsimp only
            refine ih (e.period + step) (acc ++ [⟨v, e.period⟩]) (by linarith) ?_ ?_
              (hhead2 e.period) ?_
            · intro iv hm
              rcases List.mem_append.mp hm with hm | hm
              · exact haccP e.period (by linarith) iv hm
              · rcases List.mem_singleton.mp hm with rfl
                refine ⟨⟨hv0, h2.le, le_refl _, hbv, Or.inl rfl, ?_⟩, by linarith⟩
                intro k hk
                exact findLastVisible_inf e step v hflv k
                  (mem_range_iterCount e.period step hstep hper.le k (by linarith))
            · exact chain_append_single e step acc t v _ hchain
                (fun iv hm => (hacc iv hm).2) hscan htv hbmin
            · refine Or.inr ⟨⟨v, e.period⟩, ?_, rfl⟩
              simp [List.getLast?_append]
          | val te =>
            dsimp only
            obtain ⟨hvte, hbte, hmid⟩ := findLastVisible_val e step v te hstep hbv hflv
            by_cases h3 : e.period ≤ te
            · rw [if_pos h3]
              refine ih (e.period + step) (acc ++ [⟨v, e.period⟩]) (by linarith) ?_ ?_
                (hhead2 e.period) ?_
              · intro iv hm
                rcases List.mem_append.mp hm with hm | hm
                · exact haccP e.period (by linarith) iv hm
                · rcases List.mem_singleton.mp hm with rfl
                  refine ⟨⟨hv0, h2.le, le_refl _, hbv, Or.inl rfl, ?_⟩, by linarith⟩
                  intro k hk
                  exact hmid k (by linarith)
              · exact chain_append_single e step acc t v _ hchain
                  (fun iv hm => (hacc iv hm).2) hscan htv hbmin
              · refine Or.inr ⟨⟨v, e.period⟩, ?_, rfl⟩
                simp [List.getLast?_append]
            · rw [if_neg h3]
              push_neg at h3
              refine ih (te + step) (acc ++ [⟨v, te⟩]) (by linarith) ?_ ?_
                (hhead2 te) ?_
              · intro iv hm
                rcases List.mem_append.mp hm with hm | hm
                · exact haccP te (by linarith) iv hm
                · rcases List.mem_singleton.mp hm with rfl
                  exact ⟨⟨hv0, hvte, h3.le, hbv, Or.inr hbte, hmid⟩, by linarith⟩
              · exact chain_append_single e step acc t v _ hchain
                  (fun iv hm => (hacc iv hm).2) hscan htv hbmin
              · refine Or.inr ⟨⟨v, te⟩, ?_, rfl⟩
                simp [List.getLast?_append]
    · rw [if_neg h1]
      exact ⟨fun iv hm => (hacc iv hm).1, hchain, hhead⟩

/-- C6: for a positive step size and period, the per-link cache built
by createCache is a list of intervals sorted by start time and
pairwise disjoint; every interval lies within [0, period], its start is
the first unblocked scan sample after the previous interval (all grid
samples in the gap before it, and before the first interval, are
blocked), all grid samples inside the interval are unblocked, and its
end is either clamped to the period boundary or followed by a blocked
sample one step later; a link with no unblocked sample within one
period gets an empty cache. -/
theorem c6_createCache_invariants (e : InterSatelliteLink) (step : ℚ)
    (hstep : 0 < step) (hper : 0 < e.period) :
    (∀ iv ∈ Solver.createCache e step,
      0 ≤ iv.t_begin ∧ iv.t_begin ≤ iv.t_end ∧ iv.t_end ≤ e.period ∧
      e.isBlocked iv.t_begin = false ∧
      (iv.t_end = e.period ∨ e.isBlocked (iv.t_end + step) = true) ∧
      (∀ k : ℕ, iv.t_begin + (k : ℚ) * step ≤ iv.t_end →
        e.isBlocked (iv.t_begin + (k : ℚ) * step) = false)) ∧
    List.Chain' (fun a b => a.t_end < b.t_begin ∧
      ∀ j : ℕ, a.t_end + step + (j : ℚ) * step < b.t_begin →
        e.isBlocked (a.t_end + step + (j : ℚ) * step) = true)
      (Solver.createCache e step) ∧
    (∀ iv ∈ (Solver.createCache e step).head?, ∀ j : ℕ,
      (j : ℚ) * step < iv.t_begin → e.isBlocked ((j : ℚ) * step) = true) ∧
    ((∀ k ∈ List.range (iterCount e.period step), e.isBlocked ((k : ℚ) * step) = true) →
      Solver.createCache e step = []) := by
  obtain ⟨hP, hchain, hhead⟩ := createCacheGo_spec e step hstep hper
    (iterCount e.period step + 2) 0 [] (le_refl 0)
    (fun iv hm => absurd hm (List.not_mem_nil iv))
    List.chain'_nil
    (fun iv hm => absurd hm (by simp))
    (Or.inl ⟨rfl, rfl⟩)
  refine ⟨hP, hchain, hhead, ?_⟩
  intro hall
  show Solver.createCacheGo e step (iterCount e.period step + 2) 0 [] = []
  unfold Solver.createCacheGo
  dsimp only
  rw [if_pos hper]
  have hfnv : Solver.findNextVisiblity e step 0 = .inf := by
    unfold Solver.findNextVisiblity
    have hnone : (List.range (iterCount e.period step)).find?
        (fun (k : ℕ) => ! e.isBlocked (0 + (k : ℚ) * step)) = none := by
      rw [List.find?_eq_none]
      intro k hk
      rw [zero_add, hall k hk]
      simp
    rw [hnone]
  rw [hfnv]

/-- Witness for C6: the link blocked strictly before time 2 with
period 10 and step 1 yields a cache satisfying the sortedness chain. -/
theorem c6_witness :
    List.Chain' (fun a b => a.t_end < b.t_begin ∧
      ∀ j : ℕ, a.t_end + 1 + (j : ℚ) * 1 < b.t_begin →
        c6e.isBlocked (a.t_end + 1 + (j : ℚ) * 1) = true)
      (Solver.createCache c6e 1) :=
  (c6_createCache_invariants c6e 1 (by norm_num) (by norm_num [c6e])).2.1
lemma mapFind_cons_self {α : Type} (a : ℕ × α) (m : List (ℕ × α)) :
    mapFind (a :: m) a.1 = some a.2 := by
  unfold mapFind
  rw [List.find?_cons_of_pos _ (by simp)]

lemma mapFind_cons_ne {α : Type} (a : ℕ × α) (m : List (ℕ × α)) (k : ℕ) (h : a.1 ≠ k) :
    mapFind (a :: m) k = mapFind m k := by
  unfold mapFind
  rw [List.find?_cons_of_neg _ (by simp [h])]

lemma getD_eq_of_lt {α : Type} (l : List α) (d : α) (j : ℕ) (hj : j < l.length) :
    l.getD j d = l[j] := by
  rw [List.getD_eq_getElem?_getD, List.getElem?_eq_getElem hj]
  rfl

lemma getD_mem_of_lt {α : Type} (l : List α) (d : α) (j : ℕ) (hj : j < l.length) :
    l.getD j d ∈ l := by
  rw [getD_eq_of_lt l d j hj]
  exact List.getElem_mem hj

lemma addrLookup_zip (as : List ℕ) :
    ∀ (fs : List ℕ) (j : ℕ), as.length = fs.length → as.Nodup → j < as.length →
      addrLookup (as.zip fs) (as.getD j 0) = fs.getD j 0 := by
  induction as with
  | nil =>
    intro fs j _ _ hj
    exact absurd hj (by simp)
  | cons a as ih =>
    intro fs j hlen hnd hj
    cases fs with
    | nil => simp at hlen
    | cons f fs =>
      cases j with
      | zero =>
        simp only [List.zip_cons_cons, List.getD_cons_zero]
        unfold addrLookup
        rw [mapFind_cons_self (a, f)]
        rfl
      | succ j =>
        simp only [List.zip_cons_cons, List.getD_cons_succ]
        have hjl : j < as.length := by simpa using hj
        have hkey : as.getD j 0 ∈ as := getD_mem_of_lt as 0 j hjl
        have hane : a ≠ as.getD j 0 := fun he => (List.nodup_cons.mp hnd).1 (he ▸ hkey)
        unfold addrLookup
        rw [mapFind_cons_ne (a, f) _ _ hane]
        exact ih fs j (by simpa using hlen) (List.nodup_cons.mp hnd).2 hjl

lemma addrLookup_zip_mem (as fs : List ℕ) (hlen : as.length = fs.length)
    (hnd : as.Nodup) (x : ℕ) (hx : x ∈ as) :
    addrLookup (as.zip fs) x ∈ fs := by
  obtain ⟨j, hj, hxe⟩ := List.mem_iff_getElem.mp hx
  have hgd : as.getD j 0 = x := by
    rw [getD_eq_of_lt as 0 j hj]
    exact hxe
  rw [← hgd, addrLookup_zip as fs j hlen hnd hj]
  exact getD_mem_of_lt fs 0 j (hlen ▸ hj)

/-- C7: after copy construction (and after copy assignment, which
performs the same remap), the copy keeps the orbit values, places them
at the fresh addresses, has the same number of orbits and edges, every
copied edge refers only to addresses of the copy (never of the
source), and an edge referring to the orbit at index j of the source
refers to the orbit at the same index j of the copy.  Hypotheses: the
source is well-formed (edges point into its own orbit sequence, its
addresses are distinct) and the fresh addresses are distinct from the
source ones. -/
theorem c7_copy_rebinds (source : Instance) (fresh : List ℕ) (dst : Instance)
    (hlen : source.orbitAddrs.length = fresh.length)
    (hnd : source.orbitAddrs.Nodup)
    (hWF : ∀ ed ∈ source.edges, ed.v1 ∈ source.orbitAddrs ∧ ed.v2 ∈ source.orbitAddrs)
    (hdisj : ∀ x ∈ fresh, x ∉ source.orbitAddrs) :
    (source.copy fresh).orbits = source.orbits ∧
    (source.copy fresh).edges.length = source.edges.length ∧
    (source.copy fresh).orbitAddrs = fresh ∧
    (∀ ed ∈ (source.copy fresh).edges,
      ed.v1 ∈ fresh ∧ ed.v2 ∈ fresh ∧
      ed.v1 ∉ source.orbitAddrs ∧ ed.v2 ∉ source.orbitAddrs) ∧
    (∀ i j, i < source.edges.length → j < source.orbitAddrs.length →
      ((source.edges.getD i defaultEdge).v1 = source.orbitAddrs.getD j 0 →
        ((source.copy fresh).edges.getD i defaultEdge).v1 = fresh.getD j 0) ∧
      ((source.edges.getD i defaultEdge).v2 = source.orbitAddrs.getD j 0 →
        ((source.copy fresh).edges.getD i defaultEdge).v2 = fresh.getD j 0)) ∧
    Instance.assign dst source fresh false = source.copy fresh ∧
    Instance.assign dst source fresh true = dst := by
  refine ⟨rfl, by simp [Instance.copy], rfl, ?_, ?_, rfl, rfl⟩
  · intro ed hm
    unfold Instance.copy at hm
    dsimp only at hm
    obtain ⟨e0, he0, rfl⟩ := List.mem_map.mp hm
    obtain ⟨h1, h2⟩ := hWF e0 he0
    dsimp only
    have hv1 : addrLookup (source.orbitAddrs.zip fresh) e0.v1 ∈ fresh :=
      addrLookup_zip_mem _ _ hlen hnd _ h1
    have hv2 : addrLookup (source.orbitAddrs.zip fresh) e0.v2 ∈ fresh :=
      addrLookup_zip_mem _ _ hlen hnd _ h2
    exact ⟨hv1, hv2, hdisj _ hv1, hdisj _ hv2⟩
  · intro i j hi hj
    have hmap : (source.copy fresh).edges.getD i defaultEdge =
        ⟨addrLookup (source.orbitAddrs.zip fresh)
            ((source.edges.getD i defaultEdge).v1),
          addrLookup (source.orbitAddrs.zip fresh)
            ((source.edges.getD i defaultEdge).v2),
          (source.edges.getD i defaultEdge).radius_central_mass⟩ := by
      unfold Instance.copy
      dsimp only
      rw [getD_eq_of_lt _ _ i (by simpa using hi), getD_eq_of_lt _ _ i hi,
        List.getElem_map]
    constructor
    · intro hv
      rw [hmap]
      dsimp only
      rw [hv]
      exact addrLookup_zip _ fresh j hlen hnd hj
    · intro hv
      rw [hmap]
      dsimp only
      rw [hv]
      exact addrLookup_zip _ fresh j hlen hnd hj

/-- Witness for C7: the concrete two-orbit instance with one edge,
copied to fresh addresses 20 and 21, keeps the edge on the orbits with
the same indices and inside the copy. -/
theorem c7_witness :
    ((c7Src.copy c7Fresh).edges.getD 0 defaultEdge).v1 = c7Fresh.getD 0 0 ∧
    (c7Src.copy c7Fresh).edges.length = c7Src.edges.length := by
  have h := c7_copy_rebinds c7Src c7Fresh c7Dst (by norm_num [c7Src, c7Fresh])
    (by norm_num [c7Src]) (by norm_num [c7Src]) (by norm_num [c7Src, c7Fresh])
  exact ⟨(h.2.2.2.2.1 0 0 (by norm_num [c7Src]) (by norm_num [c7Src])).1
      (by norm_num [c7Src]), h.2.1⟩

lemma parseOrbit_bad (st : LoaderState) (fs : List (Option ℚ))
    (h : BadOrbitRecord fs) : parseOrbit st fs = st := by
  unfold parseOrbit BadOrbitRecord at *
  cases h1 : getF fs 1 <;> cases h2 : getF fs 2 <;> cases h3 : getF fs 3 <;>
    cases h4 : getF fs 4 <;> cases h5 : getF fs 5 <;> cases h6 : getF fs 6 <;>
    cases h7 : getF fs 7 <;> simp_all

lemma parseEdge_bad (st : LoaderState) (fs : List (Option ℚ))
    (h : BadEdgeRecord st fs) : parseEdge st fs = st := by
  unfold parseEdge
  unfold BadEdgeRecord at h
  cases h0 : getF fs 0 with
  | none => rfl
  | some qa =>
    cases h1 : getF fs 1 with
    | none => rfl
    | some qb =>
      dsimp only
      rw [if_neg]
      intro hc
      exact h ⟨qa, qb, h0, h1, hc.1, hc.2.1, hc.2.2.1, hc.2.2.2⟩

/-- C8: a malformed numeric field in an orbit or edge record, or an
out-of-range orbit index in an edge record, never escapes the loading
loop: the record is skipped, the state built so far (mode, instance
fields, orbits, edges) is completely unchanged by the failed record,
and loading continues with the remaining lines exactly as if the bad
record were absent. -/
theorem c8_loader_skips_bad_records (st : LoaderState) (fs : List (Option ℚ))
    (rest : List Line) :
    (st.mode = 1 → BadOrbitRecord fs →
      stepLine st (.record fs) = st ∧
      loadLines (Line.record fs :: rest) st = loadLines rest st) ∧
    (st.mode = 2 → BadEdgeRecord st fs →
      stepLine st (.record fs) = st ∧
      loadLines (Line.record fs :: rest) st = loadLines rest st) := by
  constructor
  · intro hmode hbad
    have hstep : stepLine st (.record fs) = st := by
      unfold stepLine
      rw [hmode]
      exact parseOrbit_bad st fs hbad
    refine ⟨hstep, ?_⟩
    unfold loadLines
    rw [List.foldl_cons, hstep]
  · intro hmode hbad
    have hstep : stepLine st (.record fs) = st := by
      unfold stepLine
      rw [hmode]
      exact parseEdge_bad st fs hbad
    refine ⟨hstep, ?_⟩
    unfold loadLines
    rw [List.foldl_cons, hstep]

/-- Witness for C8: a record with a malformed eccentricity field in
the orbit section, and an edge record referencing the out-of-range
index 3 with a single loaded orbit, both leave the loader state
untouched. -/
theorem c8_witness :
    stepLine c8OrbSt (.record c8BadOrbit) = c8OrbSt ∧
    stepLine c8EdgeSt (.record c8BadEdge) = c8EdgeSt := by
  have hedge : BadEdgeRecord c8EdgeSt c8BadEdge := by
    rintro ⟨qa, qb, h0, h1, hc1, hc2, hc3, hc4⟩
    simp only [c8BadEdge, getF, List.getD, List.get?, Option.getD_some,
      Option.some.injEq] at h1
    subst h1
    norm_num [truncQ, c8EdgeSt] at hc4
  exact ⟨((c8_loader_skips_bad_records c8OrbSt c8BadOrbit []).1 rfl
      (by simp [BadOrbitRecord, c8BadOrbit, getF])).1,
    ((c8_loader_skips_bad_records c8EdgeSt c8BadEdge []).2 rfl hedge).1⟩

/-- C2: divergence witness for the blocking test.  At time t the two
satellites sit at (-8000, 5102.4, 0) and (8000, 5102.4, 0), and the
link carries the given central-mass radius 1000.  The segment between
the satellites passes 5102.4 from the center, far outside the given
radius, so the claimed predicate (ray-sphere quadratic for the GIVEN
radius) reports not blocked; but Solver::sphereIntersection hard-codes
radius_earth = 6378 (the source marks it with a todo remark) and
reports blocked.  The code contradicts the claim for every instance
whose central-mass radius differs from 6378. -/
theorem c2_radius_divergence :
    Solver.sphereIntersection c2Sat1 c2Sat2 ∧ ¬ specSphereBlocked 1000 c2Sat1 c2Sat2 := by
  have hlen : Real.sqrt (dot3 (sub3 c2Sat2 c2Sat1) (sub3 c2Sat2 c2Sat1)) = 16000 := by
    rw [show dot3 (sub3 c2Sat2 c2Sat1) (sub3 c2Sat2 c2Sat1) = (16000:ℝ)^2 from by
      norm_num [dot3, sub3, c2Sat1, c2Sat2]]
    exact Real.sqrt_sq (by norm_num)
  have h1 : Real.sqrt (366109956:ℝ) = 19134 := by
    rw [show (366109956:ℝ) = 19134^2 by norm_num]
    exact Real.sqrt_sq (by norm_num)
  have h2 : Real.sqrt (25:ℝ) = 5 := by
    rw [show (25:ℝ) = 5^2 by norm_num]
    exact Real.sqrt_sq (by norm_num)
  have h3 : Real.sqrt (256000000:ℝ) = 16000 := by
    rw [show (256000000:ℝ) = 16000^2 by norm_num]
    exact Real.sqrt_sq (by norm_num)
  constructor
  · unfold Solver.sphereIntersection
    dsimp only
    rw [hlen]
    norm_num [dot3, sub3, c2Sat1, c2Sat2]
    rw [h1, h2, h3]
    norm_num
  · unfold specSphereBlocked
    dsimp only
    rw [hlen]
    norm_num [dot3, sub3, c2Sat1, c2Sat2]

end dmsc
